import Mathlib

/-!
Verification model of the tree-sitter MCP structural-analysis engine.

The development shallowly embeds the Python sources:
  * `src/treesitter_mcp/core/models.py`        — result data model,
  * `src/treesitter_mcp/core/analyzer.py`      — `BaseAnalyzer` (parse, analyze,
    `_build_ast`, `run_query`),
  * `src/treesitter_mcp/core/language_manager.py` — parser cache,
  * `src/mcp_server/core/analyzer.py`          — the second `BaseAnalyzer`
    variant (differs in how node text is produced),
  * `src/mcp_server/server.py`                 — the MCP tool layer,
  * `src/treesitter_mcp/cli.py`                — CLI extension dispatch.

Python strings are modelled as Lean `String` (a list of characters, which is
how CPython indexes and slices `str`), Python `bytes` as `List Nat`, and the
tree-sitter provider node as the inductive `TSNode` carrying the fields the
code reads: `type`, `start_point`/`end_point`, `start_byte`/`end_byte`, `id`,
`text` (the byte slice of the tree's UTF-8 source — field `textBytes`), and
`children`.  The provider itself (parsing, query compilation) is treated as a
pure function, following the spec's provider contract, and is universally
quantified in the theorems.
-/

/-- Model of `models.Point` (a pydantic model with integer `row`/`column`;
tree-sitter points are non-negative, so `Nat` is used). -/
structure Point where
  row : Nat
  column : Nat
  deriving DecidableEq, Repr

/-- UTF-8 encoding of one character, as CPython's `str.encode("utf8")`
produces for each code point. -/
def utf8EncodeChar (c : Char) : List Nat :=
  let n := c.toNat
  if n < 0x80 then [n]
  else if n < 0x800 then [0xC0 + n / 0x40, 0x80 + n % 0x40]
  else if n < 0x10000 then
    [0xE0 + n / 0x1000, 0x80 + (n / 0x40) % 0x40, 0x80 + n % 0x40]
  else
    [0xF0 + n / 0x40000, 0x80 + (n / 0x1000) % 0x40, 0x80 + (n / 0x40) % 0x40,
     0x80 + n % 0x40]

/-- UTF-8 encoding of a whole string: the byte sequence
`bytes(code, "utf8")` that the engine hands to the provider's parser. -/
def utf8Encode (s : String) : List Nat :=
  s.data.flatMap utf8EncodeChar

/-- One step of UTF-8 decoding, fuelled so the recursion is structural: a
lead byte below `0x80` stands alone; lead bytes in `[0xC0, 0xE0)`,
`[0xE0, 0xF0)` and `[0xF0, …)` consume one, two and three continuation
bytes (`headI [] = 0`, so ill-formed input — on which CPython's decoder
raises — decodes arbitrarily but totally).  Every step consumes at least
one byte, so fuel equal to the list length suffices. -/
def utf8DecodeGo : Nat → List Nat → List Char
  | _, [] => []
  | 0, _ :: _ => []
  | fuel + 1, b1 :: rest =>
    if b1 < 0x80 then Char.ofNat b1 :: utf8DecodeGo fuel rest
    else if b1 < 0xE0 then
      Char.ofNat ((b1 % 0x20) * 0x40 + rest.headI % 0x40) ::
        utf8DecodeGo fuel (rest.drop 1)
    else if b1 < 0xF0 then
      Char.ofNat ((b1 % 0x10) * 0x1000 + (rest.headI % 0x40) * 0x40
          + (rest.drop 1).headI % 0x40) ::
        utf8DecodeGo fuel (rest.drop 2)
    else
      Char.ofNat ((b1 % 8) * 0x40000 + (rest.headI % 0x40) * 0x1000
          + ((rest.drop 1).headI % 0x40) * 0x40 + (rest.drop 2).headI % 0x40) ::
        utf8DecodeGo fuel (rest.drop 3)

/-- Total model of `bytes.decode("utf-8")` at the character level; on valid
UTF-8 input — the only input the code ever decodes, since `node.text` is a
slice of the tree's UTF-8 source at character boundaries — it agrees with
CPython's decoder. -/
def utf8DecodeChars (bs : List Nat) : List Char :=
  utf8DecodeGo bs.length bs

/-- Model of `bytes.decode("utf-8")` packaged as a `String`. -/
def utf8DecodeStr (bs : List Nat) : String :=
  ⟨utf8DecodeChars bs⟩

/-- Python slicing `l[a:b]` for non-negative bounds (out-of-range bounds
clamp, `a ≥ b` gives the empty slice — exactly `drop`/`take` behaviour). -/
def listSlice (l : List α) (a b : Nat) : List α :=
  (l.drop a).take (b - a)

/-- Python string slicing `s[a:b]` by character index (CPython `str` indexes
code points, not bytes). -/
def pySlice (s : String) (a b : Nat) : String :=
  ⟨listSlice s.data a b⟩

/-- Model of a tree-sitter provider node (`tree_sitter.Node`), with the
fields the analyzers read.  `textBytes` models the `node.text` property: the
slice of the tree's UTF-8 source bytes between the node's byte offsets. -/
inductive TSNode where
  | mk (type : String) (start_point end_point : Point) (start_byte end_byte : Nat)
       (id : Nat) (textBytes : List Nat) (children : List TSNode)

namespace TSNode

def type : TSNode → String
  | .mk t _ _ _ _ _ _ _ => t

def start_point : TSNode → Point
  | .mk _ sp _ _ _ _ _ _ => sp

def end_point : TSNode → Point
  | .mk _ _ ep _ _ _ _ _ => ep

def start_byte : TSNode → Nat
  | .mk _ _ _ sb _ _ _ _ => sb

def end_byte : TSNode → Nat
  | .mk _ _ _ _ eb _ _ _ => eb

def id : TSNode → Nat
  | .mk _ _ _ _ _ i _ _ => i

def textBytes : TSNode → List Nat
  | .mk _ _ _ _ _ _ tb _ => tb

def children : TSNode → List TSNode
  | .mk _ _ _ _ _ _ _ cs => cs

end TSNode

/-- Induction over provider trees: to prove `P` everywhere it suffices to
prove it at each node assuming it on all children. -/
theorem TSNode.inductionOn {P : TSNode → Prop}
    (h : ∀ ty sp ep sb eb i tb cs, (∀ c ∈ cs, P c) → P (TSNode.mk ty sp ep sb eb i tb cs)) :
    ∀ n, P n
  | .mk ty sp ep sb eb i tb cs =>
      h ty sp ep sb eb i tb cs (fun c hc => TSNode.inductionOn h c)
termination_by n => sizeOf n
decreasing_by
  simp only [TSNode.mk.sizeOf_spec]
  have := List.sizeOf_lt_of_mem hc
  omega

/-- Model of `models.ASTNode`, the pydantic model of a normalized node
(fields in declaration order: `type`, `start_point`, `end_point`,
`children`, `text`, `id`). -/
inductive ASTNode where
  | mk (type : String) (start_point end_point : Point) (children : List ASTNode)
       (text : Option String) (id : Option Nat)

namespace ASTNode

def type : ASTNode → String
  | .mk t _ _ _ _ _ => t

def start_point : ASTNode → Point
  | .mk _ sp _ _ _ _ => sp

def end_point : ASTNode → Point
  | .mk _ _ ep _ _ _ => ep

def children : ASTNode → List ASTNode
  | .mk _ _ _ cs _ _ => cs

def text : ASTNode → Option String
  | .mk _ _ _ _ t _ => t

def id : ASTNode → Option Nat
  | .mk _ _ _ _ _ i => i

end ASTNode

namespace treesitter_mcp

/-- Embedding of `BaseAnalyzer._build_ast` from `src/treesitter_mcp/core/analyzer.py`:
copies type and points, recurses into children while
`max_depth == -1 or depth < max_depth`, and when the resulting children list
is empty sets `text = node.text.decode("utf-8") if node.text else None`
(empty `bytes` are falsy in Python, hence the `isEmpty` guard). -/
def _build_ast (node : TSNode) (code : String) (depth : Int := 0)
    (max_depth : Int := -1) : ASTNode :=
  match node with
  | .mk ty sp ep _sb _eb i tb cs =>
    let children := if max_depth = -1 ∨ depth < max_depth
      then cs.attach.map (fun c => _build_ast c.1 code (depth + 1) max_depth)
      else []
    let text := if children.isEmpty
      then (if tb.isEmpty then none else some (utf8DecodeStr tb))
      else none
    ASTNode.mk ty sp ep children text (some i)
termination_by sizeOf node
decreasing_by
  simp only [TSNode.mk.sizeOf_spec]
  have := List.sizeOf_lt_of_mem c.2
  omega

end treesitter_mcp

namespace mcp_server

/-- Embedding of `BaseAnalyzer._build_ast` from `src/mcp_server/core/analyzer.py`: same
recursion, but the text of an output-leaf node is produced by slicing the
Python source *string* with the node's *byte* offsets:
`text = code[node.start_byte:node.end_byte]` (always a string, never `None`,
when the children list is empty). -/
def _build_ast (node : TSNode) (code : String) (depth : Int := 0)
    (max_depth : Int := -1) : ASTNode :=
  match node with
  | .mk ty sp ep sb eb i _tb cs =>
    let children := if max_depth = -1 ∨ depth < max_depth
      then cs.attach.map (fun c => _build_ast c.1 code (depth + 1) max_depth)
      else []
    let text := if children.isEmpty
      then some (pySlice code sb eb)
      else none
    ASTNode.mk ty sp ep children text (some i)
termination_by sizeOf node
decreasing_by
  simp only [TSNode.mk.sizeOf_spec]
  have := List.sizeOf_lt_of_mem c.2
  omega

end mcp_server

namespace models

/-- Model of `models.Symbol` (`location` is a pydantic `Dict[str, Point]`;
modelled as an association list, which preserves the insertion order the
analyzers use). -/
structure Symbol where
  name : String
  kind : String
  location : List (String × Point)
  file_path : String
  deriving DecidableEq, Repr

/-- Model of `models.AnalysisResult`; `errors` defaults to `[]` exactly as
the pydantic `Field(default_factory=list)` does. -/
structure AnalysisResult where
  file_path : String
  language : String
  ast : ASTNode
  symbols : List Symbol
  errors : List String

/-- Model of `models.CallGraphNode`. -/
structure CallGraphNode where
  name : String
  location : List (String × Point)
  calls : List String
  deriving DecidableEq, Repr

/-- Model of `models.CallGraph`. -/
structure CallGraph where
  nodes : List CallGraphNode
  deriving DecidableEq, Repr

/-- Model of `models.SearchResult`. -/
structure SearchResult where
  query : String
  «matches» : List Symbol
  deriving DecidableEq, Repr

end models

/-- The keys of `LanguageManager._languages`, fixed at construction in
`language_manager.py`: `'c'`, `'cpp'`, `'python'`. -/
def _languages : List String := ["c", "cpp", "python"]

/-- Embedding of `LanguageManager.get_language`: returns the `Language` object for a
known name, raises `ValueError(f"Language {language_name} not supported")`
otherwise.  A `Language` object is fully determined by its name, so it is
modelled by the name itself. -/
def get_language (language_name : String) : Except String String :=
  if _languages.contains language_name then .ok language_name
  else .error ("Language " ++ language_name ++ " not supported")

/-- The mutable state of a `LanguageManager`: the `_parsers` cache (an
insertion-ordered dict from language name to parser handle) plus a counter
producing fresh handle identities.  A parser handle is modelled by an opaque
numeric identity; its parsing behaviour is a function of its language alone
(the provider contract: parsing is stateless and deterministic per call). -/
structure LMState where
  parsers : List (String × Nat)
  nextId : Nat
  deriving DecidableEq, Repr

/-- Dict lookup in the `_parsers` cache (`language_name in self._parsers` /
`self._parsers[language_name]`). -/
def lookupParser (cache : List (String × Nat)) (name : String) : Option Nat :=
  match cache.find? (fun p => p.1 = name) with
  | some p => some p.2
  | none => none

/-- Embedding of `LanguageManager.get_parser`: if the name is not cached, construct
`Parser(self.get_language(name))` — which raises before any cache mutation
when the name is unknown — store it, and return the cached handle. -/
def getParser (σ : LMState) (language_name : String) :
    Except String Nat × LMState :=
  match lookupParser σ.parsers language_name with
  | some h => (.ok h, σ)
  | none =>
    match get_language language_name with
    | .error e => (.error e, σ)
    | .ok _ =>
        (.ok σ.nextId,
         { parsers := σ.parsers ++ [(language_name, σ.nextId)],
           nextId := σ.nextId + 1 })

/-- A language analyzer instance.  `language_name` models the abstract
`get_language_name`; the remaining fields model the abstract per-language
hooks (implemented in the per-language analyzer modules) and the provider
behaviours the base class invokes, all pure functions per the provider
contract.  `parseFun` consumes the UTF-8 bytes handed to
`parser.parse(bytes(code, "utf8"))`; `compileQueryFun` models query
compilation plus `QueryCursor.captures(root)`, returning the capture dict as
an insertion-ordered association list or the compiler diagnostic. -/
structure Analyzer where
  language_name : String
  parseFun : List Nat → TSNode
  extractSymbolsFun : TSNode → String → List models.Symbol
  getCallGraphFun : TSNode → String → models.CallGraph
  findFunctionFun : TSNode → String → String → models.SearchResult
  findVariableFun : TSNode → String → String → models.SearchResult
  findUsageFun : TSNode → String → String → models.SearchResult
  getDependenciesFun : TSNode → String → List String
  compileQueryFun : String → TSNode → Except String (List (String × List TSNode))

/-- Embedding of `BaseAnalyzer.parse` (identical in both analyzer files): fetch the
cached parser for the analyzer's language — creating it on first use — and
parse the UTF-8 bytes of the code; the result is the tree's root node. -/
def Analyzer.parseM (a : Analyzer) (σ : LMState) (code : String) :
    Except String TSNode × LMState :=
  match getParser σ a.language_name with
  | (.error e, σ') => (.error e, σ')
  | (.ok _, σ') => (.ok (a.parseFun (utf8Encode code)), σ')

namespace treesitter_mcp

/-- Embedding of `BaseAnalyzer.analyze` from `src/treesitter_mcp/core/analyzer.py`:
parse, build the full AST (`depth = 0`, `max_depth = -1`), extract symbols,
and assemble an `AnalysisResult` (leaving `errors` at its default `[]`). -/
def analyze (a : Analyzer) (σ : LMState) (file_path code : String) :
    Except String models.AnalysisResult × LMState :=
  match a.parseM σ code with
  | (.error e, σ') => (.error e, σ')
  | (.ok root, σ') =>
      (.ok { file_path := file_path
             language := a.language_name
             ast := _build_ast root code 0 (-1)
             symbols := a.extractSymbolsFun root file_path
             errors := [] }, σ')

end treesitter_mcp

namespace mcp_server

/-- Embedding of `BaseAnalyzer.analyze` from `src/mcp_server/core/analyzer.py` — same
shape, but uses this file's `_build_ast` (string-slice texts). -/
def analyze (a : Analyzer) (σ : LMState) (file_path code : String) :
    Except String models.AnalysisResult × LMState :=
  match a.parseM σ code with
  | (.error e, σ') => (.error e, σ')
  | (.ok root, σ') =>
      (.ok { file_path := file_path
             language := a.language_name
             ast := _build_ast root code 0 (-1)
             symbols := a.extractSymbolsFun root file_path
             errors := [] }, σ')

end mcp_server

/-- One record of the `run_query` result list: a Python dict with exactly
the keys `capture_name`, `text`, `start`, `end`, `type` (the `start`/`end`
values are `Point.model_dump()` dictionaries, modelled by the points
themselves). -/
structure QueryMatchRecord where
  capture_name : String
  text : String
  start : Point
  «end» : Point
  type : String
  deriving DecidableEq, Repr

namespace treesitter_mcp

/-- Embedding of `BaseAnalyzer.run_query` from `src/treesitter_mcp/core/analyzer.py`:
`get_language` is called *outside* the `try` block (its failure propagates
unchanged); inside, the query is compiled and the captures dict is flattened
— one record per (capture name, node) pair, dict insertion order then node
order — with `text = node.text.decode("utf-8") if node.text else ""`.  Any
failure inside the `try` is re-raised as
`ValueError(f"Invalid query: {e}")`. -/
def run_query (a : Analyzer) (query_str : String) (root_node : TSNode)
    (code : String) : Except String (List QueryMatchRecord) :=
  match get_language a.language_name with
  | .error e => .error e
  | .ok _ =>
    match a.compileQueryFun query_str root_node with
    | .error e => .error ("Invalid query: " ++ e)
    | .ok captures =>
        .ok (captures.flatMap (fun p => p.2.map (fun node =>
          { capture_name := p.1
            text := if node.textBytes.isEmpty then "" else utf8DecodeStr node.textBytes
            start := node.start_point
            «end» := node.end_point
            type := node.type })))

end treesitter_mcp

namespace mcp_server

/-- Embedding of `BaseAnalyzer.run_query` from `src/mcp_server/core/analyzer.py` — same
flattening, but `text` is `code[node.start_byte:node.end_byte]` (a string
slice at byte offsets). -/
def run_query (a : Analyzer) (query_str : String) (root_node : TSNode)
    (code : String) : Except String (List QueryMatchRecord) :=
  match get_language a.language_name with
  | .error e => .error e
  | .ok _ =>
    match a.compileQueryFun query_str root_node with
    | .error e => .error ("Invalid query: " ++ e)
    | .ok captures =>
        .ok (captures.flatMap (fun p => p.2.map (fun node =>
          { capture_name := p.1
            text := pySlice code node.start_byte node.end_byte
            start := node.start_point
            «end» := node.end_point
            type := node.type })))

end mcp_server

/-- The bare shape of a tree: type tags plus the ordered children
structure.  Used to state that `_build_ast` with no depth limit reproduces
the concrete tree's shape (node count, tags, source order). -/
inductive Shape where
  | mk (tag : String) (children : List Shape)

/-- Shape of a provider tree. -/
def TSNode.shape : TSNode → Shape
  | .mk ty _ _ _ _ _ _ cs => .mk ty (cs.attach.map fun c => TSNode.shape c.1)
termination_by n => sizeOf n
decreasing_by
  simp only [TSNode.mk.sizeOf_spec]
  have := List.sizeOf_lt_of_mem c.2
  omega

/-- Shape of a normalized tree. -/
def ASTNode.shape : ASTNode → Shape
  | .mk ty _ _ cs _ _ => .mk ty (cs.attach.map fun c => ASTNode.shape c.1)
termination_by a => sizeOf a
decreasing_by
  simp only [ASTNode.mk.sizeOf_spec]
  have := List.sizeOf_lt_of_mem c.2
  omega

/-- Number of nodes of a shape. -/
def Shape.count : Shape → Nat
  | .mk _ cs => 1 + (cs.attach.map fun c => Shape.count c.1).sum
termination_by s => sizeOf s
decreasing_by
  simp only [Shape.mk.sizeOf_spec]
  have := List.sizeOf_lt_of_mem c.2
  omega

/-- Node count of a provider tree. -/
def TSNode.count (n : TSNode) : Nat := n.shape.count

/-- Node count of a normalized tree. -/
def ASTNode.count (a : ASTNode) : Nat := a.shape.count

/-- Predicate `ASTNode.childFree a k` stating that every node of `a` at depth `k` or beyond
(relative to `a`) has an empty children list — for `k = 0`, `a` itself
carries no children (so nothing deeper exists at all). -/
def ASTNode.childFree : ASTNode → Nat → Prop
  | a, 0 => a.children = []
  | a, k + 1 => ∀ c ∈ a.children, ASTNode.childFree c k

/-- Decidable check that no node of a normalized tree carries both a
non-empty children list and a set `text` field. -/
def noTextWithChildren : ASTNode → Bool
  | .mk _ _ _ cs t _ =>
    (cs.isEmpty || t.isNone) && cs.attach.all (fun c => noTextWithChildren c.1)
termination_by a => sizeOf a
decreasing_by
  simp only [ASTNode.mk.sizeOf_spec]
  have := List.sizeOf_lt_of_mem c.2
  omega

/-- Provider well-formedness of a node against a source text: `node.text`
is exactly the slice of the tree's UTF-8 source bytes between the node's
byte offsets (which is how tree-sitter defines the `text` property), at
every node of the tree. -/
def WF (code : String) : TSNode → Bool
  | .mk _ _ _ sb eb _ tb cs =>
    (tb == listSlice (utf8Encode code) sb eb) && cs.attach.all (fun c => WF code c.1)
termination_by n => sizeOf n
decreasing_by
  simp only [TSNode.mk.sizeOf_spec]
  have := List.sizeOf_lt_of_mem c.2
  omega

/-- Every node of the tree spans a non-empty byte range that lies inside
the source (`start_byte < end_byte ≤ len`). -/
def SpansOk (len : Nat) : TSNode → Bool
  | .mk _ _ _ sb eb _ _ cs =>
    decide (sb < eb) && decide (eb ≤ len) && cs.attach.all (fun c => SpansOk len c.1)
termination_by n => sizeOf n
decreasing_by
  simp only [TSNode.mk.sizeOf_spec]
  have := List.sizeOf_lt_of_mem c.2
  omega

/-- The source text is pure ASCII (every code point below `0x80`), in which
case character indices and UTF-8 byte offsets coincide. -/
def AsciiOnly (code : String) : Bool :=
  code.data.all (fun c => c.toNat < 0x80)

/-- A value of a serialized (`model_dump`) dictionary entry. -/
inductive DVal where
  | s (v : String)
  | symbols (v : List models.Symbol)
  | strs (v : List String)
  | node (v : ASTNode)
  | cgnodes (v : List models.CallGraphNode)

/-- A Python dict produced by pydantic's `model_dump()`, as an ordered
key/value list (Python dicts preserve insertion order). -/
def Dict := List (String × DVal)

/-- Serialization `AnalysisResult.model_dump()`: one entry per field, in pydantic field
declaration order. -/
def models.AnalysisResult.model_dump (r : models.AnalysisResult) : Dict :=
  [("file_path", .s r.file_path), ("language", .s r.language),
   ("ast", .node r.ast), ("symbols", .symbols r.symbols),
   ("errors", .strs r.errors)]

/-- Serialization `SearchResult.model_dump()`. -/
def models.SearchResult.model_dump (r : models.SearchResult) : Dict :=
  [("query", .s r.query), ("matches", .symbols r.matches)]

/-- Serialization `CallGraph.model_dump()`. -/
def models.CallGraph.model_dump (g : models.CallGraph) : Dict :=
  [("nodes", .cgnodes g.nodes)]

/-- Model of `dict.pop(k, None)`: the dict with the entry for `k` removed (dict keys
are unique, so filtering removes exactly that entry). -/
def dictPop (d : Dict) (k : String) : Dict :=
  d.filter (fun p => p.1 ≠ k)

/-- Model of `str.rfind(c)`: greatest index holding `c`, or `-1` when absent. -/
def strRFind (s : String) (c : Char) : Int :=
  match (s.data.enum.filter (fun p => p.2 = c)).getLast? with
  | some p => Int.ofNat p.1
  | none => -1

/-- Model of `os.path.splitext(p)[1]` (POSIX): the suffix of `p` from its last dot,
provided that dot comes after the last `/` and the basename does not
consist solely of leading dots up to it; otherwise the empty string. -/
def splitextExt (p : String) : String :=
  let sepIndex := strRFind p '/'
  let dotIndex := strRFind p '.'
  if sepIndex < dotIndex then
    if (listSlice p.data (sepIndex + 1).toNat dotIndex.toNat).any (fun ch => ch ≠ '.')
    then ⟨p.data.drop dotIndex.toNat⟩
    else ""
  else ""

namespace mcp_server

/-- Embedding of `server.get_analyzer`: extension dispatch of the MCP server layer
(`.py` → python, `.c` → c, `.cpp`/`.cc`/`.cxx`/`.h`/`.hpp` → cpp, anything
else unsupported).  The analyzer instance is identified by its key in the
module-level `analyzers` dict. -/
def get_analyzer (file_path : String) : Option String :=
  let ext := splitextExt file_path
  if ext = ".py" then some "python"
  else if ext = ".c" then some "c"
  else if ext = ".cpp" ∨ ext = ".cc" ∨ ext = ".cxx" ∨ ext = ".h" ∨ ext = ".hpp"
  then some "cpp"
  else none

end mcp_server

namespace treesitter_mcp

/-- Extension dispatch of `cli.main`: a dict keyed by extension
(`.py` → Python, `.c` → C, `.cpp`/`.cc`/`.cxx`/`.h`/`.hpp` → C++), with a
fallback `.h` → C branch that is unreachable because the dict already maps
`.h`.  The CLI calls `os.path.abspath` first, which does not alter the file
extension, so the dispatch is modelled on the given path. -/
def cli_analyzer_for (file_path : String) : Option String :=
  let ext := splitextExt file_path
  let fromDict :=
    if ext = ".py" then some "python"
    else if ext = ".c" then some "c"
    else if ext = ".cpp" ∨ ext = ".cc" ∨ ext = ".cxx" ∨ ext = ".h" ∨ ext = ".hpp"
    then some "cpp"
    else none
  match fromDict with
  | some l => some l
  | none => if ext = ".h" then some "c" else none

end treesitter_mcp

/-- The value returned by an MCP tool: a dict, a plain JSON list of query
records, a list of dependency strings, or the serialized AST
(`ASTNode.model_dump()`, represented by the node itself — the serialization
is a faithful image of the node). -/
inductive ToolResponse where
  | dict (d : Dict)
  | qlist (l : List QueryMatchRecord)
  | slist (l : List String)
  | astDump (a : ASTNode)

/-- The degraded response `{"error": msg}` every tool returns at its
outermost boundary. -/
def errorDict (msg : String) : ToolResponse :=
  .dict [("error", .s msg)]

/-- The ambient collaborators of the server module: the file system
(`open(file_path).read()`, which either yields the text or raises an
`OSError` whose message the `except` branches stringify) and the
module-level `analyzers` dict mapping the language key to its analyzer
instance. -/
structure ServerEnv where
  fs : String → Except String String
  analyzers : String → Analyzer

namespace mcp_server

/-- Tool `treesitter_analyze_file`: dispatch by extension (unsupported →
`{"error": ...}`), read the file, run `analyze`, serialize with
`model_dump()`, and `pop('ast', None)` before returning; any exception is
degraded to `{"error": f"Error analyzing file: {e}"}`. -/
def treesitter_analyze_file (env : ServerEnv) (σ : LMState)
    (file_path : String) : ToolResponse :=
  match get_analyzer file_path with
  | none => errorDict ("Unsupported file type: " ++ file_path)
  | some lang =>
    match env.fs file_path with
    | .error e => errorDict ("Error analyzing file: " ++ e)
    | .ok code =>
      match analyze (env.analyzers lang) σ file_path code with
      | (.error e, _) => errorDict ("Error analyzing file: " ++ e)
      | (.ok r, _) => .dict (dictPop r.model_dump "ast")

/-- Tool `treesitter_get_call_graph` (the `hasattr` guard is always true:
the method is declared on the abstract base class). -/
def treesitter_get_call_graph (env : ServerEnv) (σ : LMState)
    (file_path : String) : ToolResponse :=
  match get_analyzer file_path with
  | none => errorDict ("Unsupported file type: " ++ file_path)
  | some lang =>
    match env.fs file_path with
    | .error e => errorDict ("Error generating call graph: " ++ e)
    | .ok code =>
      match (env.analyzers lang).parseM σ code with
      | (.error e, _) => errorDict ("Error generating call graph: " ++ e)
      | (.ok root, _) =>
          .dict ((env.analyzers lang).getCallGraphFun root file_path).model_dump

/-- Tool `treesitter_find_function`. -/
def treesitter_find_function (env : ServerEnv) (σ : LMState)
    (file_path name : String) : ToolResponse :=
  match get_analyzer file_path with
  | none => errorDict ("Unsupported file type: " ++ file_path)
  | some lang =>
    match env.fs file_path with
    | .error e => errorDict ("Error finding function: " ++ e)
    | .ok code =>
      match (env.analyzers lang).parseM σ code with
      | (.error e, _) => errorDict ("Error finding function: " ++ e)
      | (.ok root, _) =>
          .dict ((env.analyzers lang).findFunctionFun root file_path name).model_dump

/-- Tool `treesitter_find_variable`. -/
def treesitter_find_variable (env : ServerEnv) (σ : LMState)
    (file_path name : String) : ToolResponse :=
  match get_analyzer file_path with
  | none => errorDict ("Unsupported file type: " ++ file_path)
  | some lang =>
    match env.fs file_path with
    | .error e => errorDict ("Error finding variable: " ++ e)
    | .ok code =>
      match (env.analyzers lang).parseM σ code with
      | (.error e, _) => errorDict ("Error finding variable: " ++ e)
      | (.ok root, _) =>
          .dict ((env.analyzers lang).findVariableFun root file_path name).model_dump

/-- Tool `treesitter_get_ast`: parse and serialize
`_build_ast(root, code, max_depth=max_depth)`. -/
def treesitter_get_ast (env : ServerEnv) (σ : LMState)
    (file_path : String) (max_depth : Int := -1) : ToolResponse :=
  match get_analyzer file_path with
  | none => errorDict ("Unsupported file type: " ++ file_path)
  | some lang =>
    match env.fs file_path with
    | .error e => errorDict ("Error getting AST: " ++ e)
    | .ok code =>
      match (env.analyzers lang).parseM σ code with
      | (.error e, _) => errorDict ("Error getting AST: " ++ e)
      | (.ok root, _) => .astDump (_build_ast root code 0 max_depth)

/-- Tool `treesitter_run_query` (the optional `language` argument is read
but never used for dispatch). -/
def treesitter_run_query (env : ServerEnv) (σ : LMState)
    (query file_path : String) : ToolResponse :=
  match get_analyzer file_path with
  | none => errorDict ("Unsupported file type: " ++ file_path)
  | some lang =>
    match env.fs file_path with
    | .error e => errorDict ("Error running query: " ++ e)
    | .ok code =>
      match (env.analyzers lang).parseM σ code with
      | (.error e, _) => errorDict ("Error running query: " ++ e)
      | (.ok root, _) =>
        match run_query (env.analyzers lang) query root code with
        | .error e => errorDict ("Error running query: " ++ e)
        | .ok results => .qlist results

/-- Tool `treesitter_find_usage`. -/
def treesitter_find_usage (env : ServerEnv) (σ : LMState)
    (name file_path : String) : ToolResponse :=
  match get_analyzer file_path with
  | none => errorDict ("Unsupported file type: " ++ file_path)
  | some lang =>
    match env.fs file_path with
    | .error e => errorDict ("Error finding usage: " ++ e)
    | .ok code =>
      match (env.analyzers lang).parseM σ code with
      | (.error e, _) => errorDict ("Error finding usage: " ++ e)
      | (.ok root, _) =>
          .dict ((env.analyzers lang).findUsageFun root file_path name).model_dump

/-- Tool `treesitter_get_dependencies`. -/
def treesitter_get_dependencies (env : ServerEnv) (σ : LMState)
    (file_path : String) : ToolResponse :=
  match get_analyzer file_path with
  | none => errorDict ("Unsupported file type: " ++ file_path)
  | some lang =>
    match env.fs file_path with
    | .error e => errorDict ("Error getting dependencies: " ++ e)
    | .ok code =>
      match (env.analyzers lang).parseM σ code with
      | (.error e, _) => errorDict ("Error getting dependencies: " ++ e)
      | (.ok root, _) =>
          .slist ((env.analyzers lang).getDependenciesFun root file_path)

end mcp_server

@[simp] theorem TSNode.type_mk_ts (ty : String) (sp ep : Point) (sb eb i : Nat)
    (tb : List Nat) (cs : List TSNode) :
    (TSNode.mk ty sp ep sb eb i tb cs).type = ty := rfl

@[simp] theorem TSNode.start_point_mk_ts (ty : String) (sp ep : Point) (sb eb i : Nat)
    (tb : List Nat) (cs : List TSNode) :
    (TSNode.mk ty sp ep sb eb i tb cs).start_point = sp := rfl

@[simp] theorem TSNode.end_point_mk_ts (ty : String) (sp ep : Point) (sb eb i : Nat)
    (tb : List Nat) (cs : List TSNode) :
    (TSNode.mk ty sp ep sb eb i tb cs).end_point = ep := rfl

@[simp] theorem TSNode.start_byte_mk (ty : String) (sp ep : Point) (sb eb i : Nat)
    (tb : List Nat) (cs : List TSNode) :
    (TSNode.mk ty sp ep sb eb i tb cs).start_byte = sb := rfl

@[simp] theorem TSNode.end_byte_mk (ty : String) (sp ep : Point) (sb eb i : Nat)
    (tb : List Nat) (cs : List TSNode) :
    (TSNode.mk ty sp ep sb eb i tb cs).end_byte = eb := rfl

@[simp] theorem TSNode.id_mk_ts (ty : String) (sp ep : Point) (sb eb i : Nat)
    (tb : List Nat) (cs : List TSNode) :
    (TSNode.mk ty sp ep sb eb i tb cs).id = i := rfl

@[simp] theorem TSNode.textBytes_mk (ty : String) (sp ep : Point) (sb eb i : Nat)
    (tb : List Nat) (cs : List TSNode) :
    (TSNode.mk ty sp ep sb eb i tb cs).textBytes = tb := rfl

@[simp] theorem TSNode.children_mk_ts (ty : String) (sp ep : Point) (sb eb i : Nat)
    (tb : List Nat) (cs : List TSNode) :
    (TSNode.mk ty sp ep sb eb i tb cs).children = cs := rfl

@[simp] theorem ASTNode.type_mk_ast (ty : String) (sp ep : Point) (cs : List ASTNode)
    (t : Option String) (i : Option Nat) :
    (ASTNode.mk ty sp ep cs t i).type = ty := rfl

@[simp] theorem ASTNode.start_point_mk_ast (ty : String) (sp ep : Point) (cs : List ASTNode)
    (t : Option String) (i : Option Nat) :
    (ASTNode.mk ty sp ep cs t i).start_point = sp := rfl

@[simp] theorem ASTNode.end_point_mk_ast (ty : String) (sp ep : Point) (cs : List ASTNode)
    (t : Option String) (i : Option Nat) :
    (ASTNode.mk ty sp ep cs t i).end_point = ep := rfl

@[simp] theorem ASTNode.children_mk_ast (ty : String) (sp ep : Point) (cs : List ASTNode)
    (t : Option String) (i : Option Nat) :
    (ASTNode.mk ty sp ep cs t i).children = cs := rfl

@[simp] theorem ASTNode.text_mk (ty : String) (sp ep : Point) (cs : List ASTNode)
    (t : Option String) (i : Option Nat) :
    (ASTNode.mk ty sp ep cs t i).text = t := rfl

@[simp] theorem ASTNode.id_mk_ast (ty : String) (sp ep : Point) (cs : List ASTNode)
    (t : Option String) (i : Option Nat) :
    (ASTNode.mk ty sp ep cs t i).id = i := rfl

/-- Defining equation of `treesitter_mcp._build_ast` with the termination
scaffolding (`attach`) eliminated. -/
theorem treesitter_mcp.build_ast_eq_tsm (ty : String) (sp ep : Point) (sb eb i : Nat)
    (tb : List Nat) (cs : List TSNode) (code : String) (depth max_depth : Int) :
    treesitter_mcp._build_ast (.mk ty sp ep sb eb i tb cs) code depth max_depth =
      (fun children => ASTNode.mk ty sp ep children
          (if children.isEmpty
            then (if tb.isEmpty then none else some (utf8DecodeStr tb)) else none)
          (some i))
        (if max_depth = -1 ∨ depth < max_depth
          then cs.map (fun c => treesitter_mcp._build_ast c code (depth + 1) max_depth)
          else []) := by
  rw [treesitter_mcp._build_ast]
  rw [List.attach_map_coe cs
    (fun c => treesitter_mcp._build_ast c code (depth + 1) max_depth)]

/-- Defining equation of `mcp_server._build_ast` with the termination
scaffolding eliminated. -/
theorem mcp_server.build_ast_eq_srv (ty : String) (sp ep : Point) (sb eb i : Nat)
    (tb : List Nat) (cs : List TSNode) (code : String) (depth max_depth : Int) :
    mcp_server._build_ast (.mk ty sp ep sb eb i tb cs) code depth max_depth =
      (fun children => ASTNode.mk ty sp ep children
          (if children.isEmpty then some (pySlice code sb eb) else none)
          (some i))
        (if max_depth = -1 ∨ depth < max_depth
          then cs.map (fun c => mcp_server._build_ast c code (depth + 1) max_depth)
          else []) := by
  rw [mcp_server._build_ast]
  rw [List.attach_map_coe cs
    (fun c => mcp_server._build_ast c code (depth + 1) max_depth)]

/-- Defining equation of `TSNode.shape`. -/
theorem TSNode.shape_eq_ts (ty : String) (sp ep : Point) (sb eb i : Nat)
    (tb : List Nat) (cs : List TSNode) :
    (TSNode.mk ty sp ep sb eb i tb cs).shape = .mk ty (cs.map TSNode.shape) := by
  rw [TSNode.shape]
  rw [List.attach_map_coe cs TSNode.shape]

/-- Defining equation of `ASTNode.shape`. -/
theorem ASTNode.shape_eq_ast (ty : String) (sp ep : Point) (cs : List ASTNode)
    (t : Option String) (i : Option Nat) :
    (ASTNode.mk ty sp ep cs t i).shape = .mk ty (cs.map ASTNode.shape) := by
  rw [ASTNode.shape]
  rw [List.attach_map_coe cs ASTNode.shape]

/-- Defining equation of `Shape.count`. -/
theorem Shape.count_eq (tag : String) (cs : List Shape) :
    (Shape.mk tag cs).count = 1 + (cs.map Shape.count).sum := by
  rw [Shape.count]
  rw [List.attach_map_coe cs Shape.count]

/-- Characterization of `noTextWithChildren` without `attach`. -/
theorem noTextWithChildren_iff (ty : String) (sp ep : Point) (cs : List ASTNode)
    (t : Option String) (i : Option Nat) :
    noTextWithChildren (.mk ty sp ep cs t i) = true ↔
      ((cs.isEmpty || t.isNone) = true ∧ ∀ c ∈ cs, noTextWithChildren c = true) := by
  rw [noTextWithChildren]
  simp [List.all_eq_true]

/-- Characterization of `WF` without `attach`. -/
theorem WF_iff (code : String) (ty : String) (sp ep : Point) (sb eb i : Nat)
    (tb : List Nat) (cs : List TSNode) :
    WF code (.mk ty sp ep sb eb i tb cs) = true ↔
      (tb = listSlice (utf8Encode code) sb eb ∧ ∀ c ∈ cs, WF code c = true) := by
  rw [WF]
  simp [List.all_eq_true]

/-- Characterization of `SpansOk` without `attach`. -/
theorem SpansOk_iff (len : Nat) (ty : String) (sp ep : Point) (sb eb i : Nat)
    (tb : List Nat) (cs : List TSNode) :
    SpansOk len (.mk ty sp ep sb eb i tb cs) = true ↔
      (sb < eb ∧ eb ≤ len ∧ ∀ c ∈ cs, SpansOk len c = true) := by
  rw [SpansOk]
  simp [List.all_eq_true, and_assoc]

/-- On ASCII characters the UTF-8 encoding is one byte per character. -/
theorem ascii_flatMap_encode (cs : List Char) (h : ∀ c ∈ cs, c.toNat < 0x80) :
    cs.flatMap utf8EncodeChar = cs.map Char.toNat := by
  induction cs with
  | nil => rfl
  | cons c rest ih =>
    rw [List.flatMap_cons, List.map_cons]
    rw [ih (fun x hx => h x (List.mem_cons_of_mem c hx))]
    have hc : c.toNat < 0x80 := h c (List.mem_cons_self c rest)
    unfold utf8EncodeChar
    rw [if_pos hc]
    rfl

/-- On an ASCII string, `utf8Encode` is the per-character code-point list:
byte offsets and character indices coincide. -/
theorem ascii_utf8Encode (code : String) (h : AsciiOnly code = true) :
    utf8Encode code = code.data.map Char.toNat := by
  unfold AsciiOnly at h
  rw [List.all_eq_true] at h
  exact ascii_flatMap_encode code.data (fun c hc => of_decide_eq_true (h c hc))

/-- With enough fuel, decoding the one-byte-per-character encoding of
ASCII characters recovers the characters. -/
theorem utf8DecodeGo_map_toNat (cs : List Char) (h : ∀ c ∈ cs, c.toNat < 0x80) :
    ∀ fuel, cs.length ≤ fuel → utf8DecodeGo fuel (cs.map Char.toNat) = cs := by
  induction cs with
  | nil =>
    intro fuel _
    cases fuel <;> rfl
  | cons c rest ih =>
    intro fuel hf
    cases fuel with
    | zero => simp at hf
    | succ f =>
      rw [List.map_cons, utf8DecodeGo]
      rw [if_pos (h c (List.mem_cons_self c rest))]
      rw [Char.ofNat_toNat,
        ih (fun x hx => h x (List.mem_cons_of_mem c hx)) f (by simpa using hf)]

/-- Decoding the one-byte-per-character encoding of ASCII characters
recovers the characters. -/
theorem utf8Decode_map_toNat (cs : List Char) (h : ∀ c ∈ cs, c.toNat < 0x80) :
    utf8DecodeChars (cs.map Char.toNat) = cs := by
  unfold utf8DecodeChars
  exact utf8DecodeGo_map_toNat cs h _ (by simp)

/-- Python slicing commutes with `map`. -/
theorem listSlice_map (f : α → β) (l : List α) (a b : Nat) :
    listSlice (l.map f) a b = (listSlice l a b).map f := by
  unfold listSlice
  rw [← List.map_drop, ← List.map_take]

/-- Elements of a slice are elements of the list. -/
theorem mem_of_mem_listSlice {l : List α} {a b : Nat} {x : α}
    (h : x ∈ listSlice l a b) : x ∈ l :=
  List.mem_of_mem_drop (List.mem_of_mem_take h)

/-- A slice over a non-empty in-range window is non-empty. -/
theorem listSlice_ne_nil (l : List α) (a b : Nat) (h1 : a < b)
    (h2 : a < l.length) : listSlice l a b ≠ [] := by
  unfold listSlice
  intro h
  have := congrArg List.length h
  simp only [List.length_take, List.length_drop, List.length_nil] at this
  omega

/-- Accessor form of the `WF` text condition: a well-formed node's `text`
bytes are the slice of the encoded source at its byte offsets. -/
theorem WF_textBytes (code : String) (n : TSNode) (h : WF code n = true) :
    n.textBytes = listSlice (utf8Encode code) n.start_byte n.end_byte := by
  cases n with
  | mk ty sp ep sb eb i tb cs =>
    simpa using ((WF_iff code ty sp ep sb eb i tb cs).mp h).1

/-- Decoding the empty byte string gives the empty string, so the
falsiness guard `if node.text ... else ""` collapses to plain decoding. -/
theorem utf8DecodeStr_if_empty (bs : List Nat) :
    (if bs.isEmpty then "" else utf8DecodeStr bs) = utf8DecodeStr bs := by
  cases bs with
  | nil => rfl
  | cons b rest => rfl

/-- Congruence for `flatMap` over pointwise-equal functions. -/
theorem flatMap_congr_left {l : List α} {f g : α → List β}
    (h : ∀ a ∈ l, f a = g a) : l.flatMap f = l.flatMap g := by
  induction l with
  | nil => rfl
  | cons x xs ih =>
    rw [List.flatMap_cons, List.flatMap_cons, h x (List.mem_cons_self x xs),
      ih (fun a ha => h a (List.mem_cons_of_mem x ha))]

/-- On an ASCII source, UTF-8-decoding the byte slice at byte offsets is
the same as string-slicing the source at those offsets taken as character
indices (this also covers empty and clamped windows). -/
theorem ascii_decode_slice (code : String) (hascii : AsciiOnly code = true)
    (a b : Nat) :
    utf8DecodeStr (listSlice (utf8Encode code) a b) = pySlice code a b := by
  rw [ascii_utf8Encode code hascii, listSlice_map]
  unfold utf8DecodeStr pySlice
  congr 1
  refine utf8Decode_map_toNat _ (fun c hc => ?_)
  have hmem := mem_of_mem_listSlice hc
  unfold AsciiOnly at hascii
  rw [List.all_eq_true] at hascii
  exact of_decide_eq_true (hascii c hmem)

/-- No node the `mcp_server` builder emits carries both children and
text. -/
theorem mcp_server.build_noText_srv (code : String) :
    ∀ n : TSNode, ∀ depth max_depth : Int,
      noTextWithChildren (mcp_server._build_ast n code depth max_depth) = true := by
  intro n
  induction n using TSNode.inductionOn with
  | _ ty sp ep sb eb i tb cs ih =>
    intro depth max_depth
    simp only [mcp_server.build_ast_eq_srv]
    rw [noTextWithChildren_iff]
    set C := (if max_depth = -1 ∨ depth < max_depth
      then cs.map (fun c => mcp_server._build_ast c code (depth + 1) max_depth)
      else []) with hC
    constructor
    · by_cases h : C.isEmpty <;> simp [h]
    · intro c hc
      rw [hC] at hc
      by_cases hcond : max_depth = -1 ∨ depth < max_depth
      · rw [if_pos hcond] at hc
        obtain ⟨c0, hc0, rfl⟩ := List.mem_map.mp hc
        exact ih c0 hc0 (depth + 1) max_depth
      · rw [if_neg hcond] at hc
        cases hc

/-- With no depth limit, normalization preserves the tree shape. -/
theorem treesitter_mcp.build_shape (code : String) :
    ∀ n : TSNode, ∀ depth : Int,
      (treesitter_mcp._build_ast n code depth (-1)).shape = n.shape := by
  intro n
  induction n using TSNode.inductionOn with
  | _ ty sp ep sb eb i tb cs ih =>
    intro depth
    simp only [treesitter_mcp.build_ast_eq_tsm, TSNode.shape_eq_ts]
    rw [if_pos (Or.inl trivial)]
    rw [ASTNode.shape_eq_ast]
    congr 1
    rw [List.map_map]
    exact List.map_congr_left (fun c hc => ih c hc (depth + 1))

/-- With a depth limit other than `-1`, every node the builder emits at
relative depth `≥ max_depth - depth` has an empty children list. -/
theorem treesitter_mcp.build_childFree (code : String) :
    ∀ n : TSNode, ∀ depth max_depth : Int, ∀ k : Nat,
      max_depth ≠ -1 → max_depth ≤ depth + k →
      (treesitter_mcp._build_ast n code depth max_depth).childFree k := by
  intro n
  induction n using TSNode.inductionOn with
  | _ ty sp ep sb eb i tb cs ih =>
    intro depth max_depth k hne hle
    cases k with
    | zero =>
      simp only [treesitter_mcp.build_ast_eq_tsm, ASTNode.childFree]
      rw [if_neg (by push_neg; exact ⟨hne, by omega⟩)]
      simp
    | succ k =>
      simp only [treesitter_mcp.build_ast_eq_tsm, ASTNode.childFree]
      intro c hc
      by_cases hcond : max_depth = -1 ∨ depth < max_depth
      · rw [if_pos hcond] at hc
        obtain ⟨c0, hc0, rfl⟩ := List.mem_map.mp hc
        exact ih c0 hc0 (depth + 1) max_depth k hne (by omega)
      · rw [if_neg hcond] at hc
        cases hc

/-- C1: `_build_ast` with `max_depth = -1` reproduces the full concrete
tree shape — same node count, same type tags, children in source order
(captured by `Shape` equality) — and with `max_depth = d ≥ 0` no node at
depth `d` or beyond in the output carries children; `max_depth = 0` yields
the root alone with no children materialized. -/
theorem c1_build_ast_shape_and_depth (n : TSNode) (code : String) :
    (treesitter_mcp._build_ast n code 0 (-1)).shape = n.shape ∧
    (treesitter_mcp._build_ast n code 0 (-1)).count = n.count ∧
    (∀ d : Nat, (treesitter_mcp._build_ast n code 0 (d : Int)).childFree d) ∧
    (treesitter_mcp._build_ast n code 0 0).children = [] := by
  refine ⟨treesitter_mcp.build_shape code n 0, ?_, ?_, ?_⟩
  · unfold ASTNode.count TSNode.count
    rw [treesitter_mcp.build_shape code n 0]
  · intro d
    exact treesitter_mcp.build_childFree code n 0 (d : Int) d (by omega) (by omega)
  · have h := treesitter_mcp.build_childFree code n 0 0 0 (by omega) (by omega)
    simpa [ASTNode.childFree] using h

/-- No node the builder emits carries both children and text. -/
theorem treesitter_mcp.build_noText (code : String) :
    ∀ n : TSNode, ∀ depth max_depth : Int,
      noTextWithChildren (treesitter_mcp._build_ast n code depth max_depth) = true := by
  intro n
  induction n using TSNode.inductionOn with
  | _ ty sp ep sb eb i tb cs ih =>
    intro depth max_depth
    simp only [treesitter_mcp.build_ast_eq_tsm]
    rw [noTextWithChildren_iff]
    set C := (if max_depth = -1 ∨ depth < max_depth
      then cs.map (fun c => treesitter_mcp._build_ast c code (depth + 1) max_depth)
      else []) with hC
    constructor
    · by_cases h : C.isEmpty <;> simp [h]
    · intro c hc
      rw [hC] at hc
      by_cases hcond : max_depth = -1 ∨ depth < max_depth
      · rw [if_pos hcond] at hc
        obtain ⟨c0, hc0, rfl⟩ := List.mem_map.mp hc
        exact ih c0 hc0 (depth + 1) max_depth
      · rw [if_neg hcond] at hc
        cases hc

/-- C2 (amended): in every tree either `_build_ast` returns, a node with a
non-empty children list has `text` unset.  When the output children list is
empty — whether by truncation or because the node is a true leaf — the
`treesitter_mcp` variant sets `text` to the UTF-8-decoded source slice at
the node's byte offsets when that slice is non-empty, and to `None` when
the byte span is empty (empty `bytes` are falsy, so the code stores `None`
rather than `""`); the `mcp_server` variant always sets `text` to the
character-index slice `code[start_byte:end_byte]`, which equals the
UTF-8-decoded byte slice exactly when byte offsets and character indices
coincide, e.g. on ASCII sources.  Each inner node of the output is itself
the root of the recursive invocation on the corresponding provider child,
so quantifying over `n`, `depth` and `max_depth` covers every node of
every output tree. -/
theorem c2_text_policy (code : String) (n : TSNode) (depth max_depth : Int)
    (hwf : WF code n = true) :
    noTextWithChildren (treesitter_mcp._build_ast n code depth max_depth) = true ∧
    noTextWithChildren (mcp_server._build_ast n code depth max_depth) = true ∧
    ((treesitter_mcp._build_ast n code depth max_depth).children = [] →
      (treesitter_mcp._build_ast n code depth max_depth).text =
        (if (listSlice (utf8Encode code) n.start_byte n.end_byte).isEmpty then none
         else some (utf8DecodeStr (listSlice (utf8Encode code) n.start_byte n.end_byte)))) ∧
    ((mcp_server._build_ast n code depth max_depth).children = [] →
      (mcp_server._build_ast n code depth max_depth).text =
        some (pySlice code n.start_byte n.end_byte)) ∧
    (AsciiOnly code = true →
      (mcp_server._build_ast n code depth max_depth).children = [] →
      (mcp_server._build_ast n code depth max_depth).text =
        some (utf8DecodeStr (listSlice (utf8Encode code) n.start_byte n.end_byte))) := by
  have hsrv : (mcp_server._build_ast n code depth max_depth).children = [] →
      (mcp_server._build_ast n code depth max_depth).text =
        some (pySlice code n.start_byte n.end_byte) := by
    cases n with
    | mk ty sp ep sb eb i tb cs =>
      intro hempty
      simp only [mcp_server.build_ast_eq_srv] at hempty ⊢
      rw [ASTNode.children_mk_ast] at hempty
      rw [hempty]
      simp [TSNode.start_byte, TSNode.end_byte]
  refine ⟨treesitter_mcp.build_noText code n depth max_depth,
    mcp_server.build_noText_srv code n depth max_depth, ?_, hsrv, ?_⟩
  · cases n with
    | mk ty sp ep sb eb i tb cs =>
      obtain ⟨htb, -⟩ := (WF_iff code ty sp ep sb eb i tb cs).mp hwf
      intro hempty
      simp only [treesitter_mcp.build_ast_eq_tsm] at hempty ⊢
      rw [ASTNode.children_mk_ast] at hempty
      rw [hempty]
      simp [htb, TSNode.start_byte, TSNode.end_byte]
  · intro hascii hempty
    rw [hsrv hempty, ascii_decode_slice code hascii]

/-- C2, counterexample to the literal claim, one concrete input per cited
implementation.  For `treesitter_mcp._build_ast`: parsing the empty Python
module yields a zero-span leaf root, and there the builder leaves `text`
unset (`None`) while the claim requires text equal to the (empty) decoded
slice `""`.  For `mcp_server._build_ast`: on the source `"é = 1"` the
identifier leaf spanning bytes `[0, 2)` gets the character slice `"é "`,
not the UTF-8-decoded byte slice `"é"` the claim requires. -/
theorem c2_counterexample :
    (WF "" (TSNode.mk "module" ⟨0, 0⟩ ⟨0, 0⟩ 0 0 1 [] []) = true ∧
     (treesitter_mcp._build_ast (TSNode.mk "module" ⟨0, 0⟩ ⟨0, 0⟩ 0 0 1 [] [])
        "" 0 (-1)).children = [] ∧
     (treesitter_mcp._build_ast (TSNode.mk "module" ⟨0, 0⟩ ⟨0, 0⟩ 0 0 1 [] [])
        "" 0 (-1)).text ≠
       some (utf8DecodeStr (listSlice (utf8Encode "") 0 0))) ∧
    (WF "é = 1" (TSNode.mk "identifier" ⟨0, 0⟩ ⟨0, 2⟩ 0 2 7 [0xC3, 0xA9] []) = true ∧
     (mcp_server._build_ast (TSNode.mk "identifier" ⟨0, 0⟩ ⟨0, 2⟩ 0 2 7 [0xC3, 0xA9] [])
        "é = 1" 0 (-1)).children = [] ∧
     (mcp_server._build_ast (TSNode.mk "identifier" ⟨0, 0⟩ ⟨0, 2⟩ 0 2 7 [0xC3, 0xA9] [])
        "é = 1" 0 (-1)).text ≠
       some (utf8DecodeStr (listSlice (utf8Encode "é = 1") 0 2))) := by
  refine ⟨⟨?_, ?_, ?_⟩, ⟨?_, ?_, ?_⟩⟩
  · rw [WF_iff]
    exact ⟨rfl, by simp⟩
  · simp [treesitter_mcp.build_ast_eq_tsm]
  · simp [treesitter_mcp.build_ast_eq_tsm]
  · rw [WF_iff]
    exact ⟨by decide, by simp⟩
  · simp [mcp_server.build_ast_eq_srv]
  · have hsrv : (mcp_server._build_ast
        (TSNode.mk "identifier" ⟨0, 0⟩ ⟨0, 2⟩ 0 2 7 [0xC3, 0xA9] [])
        "é = 1" 0 (-1)).text = some (pySlice "é = 1" 0 2) := by
      simp [mcp_server.build_ast_eq_srv]
    rw [hsrv]
    intro h
    rw [Option.some.injEq] at h
    exact absurd h (by decide)

/-- Witness for `c2_text_policy` at a concrete input: a one-character
ASCII Python source `"x"` whose root spans byte range `[0, 1)`; the
hypotheses hold and both builders emit `text = some "x"`. -/
theorem c2_text_policy_witness :
    (treesitter_mcp._build_ast (TSNode.mk "module" ⟨0, 0⟩ ⟨0, 1⟩ 0 1 1 [0x78] [])
        "x" 0 (-1)).text = some "x" ∧
    (mcp_server._build_ast (TSNode.mk "module" ⟨0, 0⟩ ⟨0, 1⟩ 0 1 1 [0x78] [])
        "x" 0 (-1)).text = some "x" := by
  have hwf : WF "x" (TSNode.mk "module" ⟨0, 0⟩ ⟨0, 1⟩ 0 1 1 [0x78] []) = true := by
    rw [WF_iff]
    exact ⟨by decide, by simp⟩
  have h := c2_text_policy "x" (TSNode.mk "module" ⟨0, 0⟩ ⟨0, 1⟩ 0 1 1 [0x78] [])
      0 (-1) hwf
  constructor
  · rw [h.2.2.1 (by simp [treesitter_mcp.build_ast_eq_tsm])]
    decide
  · rw [h.2.2.2.2 (by decide) (by simp [mcp_server.build_ast_eq_srv])]
    decide

/-- Appending a fresh cache entry for a name not yet cached makes that name
resolve to the new handle. -/
theorem lookupParser_append_self (l : List (String × Nat)) (name : String) (v : Nat)
    (h : lookupParser l name = none) :
    lookupParser (l ++ [(name, v)]) name = some v := by
  unfold lookupParser at h ⊢
  rw [List.find?_append]
  cases hf : l.find? (fun p => p.1 = name) with
  | some p => rw [hf] at h; simp at h
  | none => simp

/-- C3: calling `analyze` twice on identical input — the second call
running on the language-manager state the first call left behind, so the
first call may create the cached parser and the second reuses it — returns
equal `AnalysisResult`s (hence equal normalized ASTs and equal Symbol
sequences, order and content).  The provider is a pure function per its
contract, so the only state that could influence the result is the parser
cache threaded here. -/
theorem c3_analyze_idempotent (a : Analyzer) (σ : LMState) (fp code : String) :
    (treesitter_mcp.analyze a σ fp code).1 =
      (treesitter_mcp.analyze a ((treesitter_mcp.analyze a σ fp code).2) fp code).1 := by
  unfold treesitter_mcp.analyze Analyzer.parseM getParser
  cases hl : lookupParser σ.parsers a.language_name with
  | some h => simp [hl]
  | none =>
    cases hg : get_language a.language_name with
    | error e => simp [hl, hg]
    | ok l =>
      have h2 := lookupParser_append_self σ.parsers a.language_name σ.nextId hl
      simp [hl, hg, h2]

/-- C9: no code path of `analyze` populates the `errors` field — every
successfully returned `AnalysisResult` has an empty errors list. -/
theorem c9_errors_always_empty (a : Analyzer) (σ : LMState) (fp code : String)
    (r : models.AnalysisResult) (σ' : LMState)
    (h : treesitter_mcp.analyze a σ fp code = (.ok r, σ')) :
    r.errors = [] := by
  unfold treesitter_mcp.analyze at h
  split at h
  · simp at h
  · rw [Prod.mk.injEq] at h
    obtain ⟨h1, -⟩ := h
    rw [Except.ok.injEq] at h1
    rw [← h1]

/-- A concrete Python-analyzer instance for the closed witness theorems:
the provider behaviours are simple concrete functions (queries other than
`"(bad"` compile and capture the root under the name `"id"`; `"(bad"`
fails to compile with diagnostic `"boom"`). -/
def witAnalyzer : Analyzer where
  language_name := "python"
  parseFun := fun _ => TSNode.mk "module" ⟨0, 0⟩ ⟨0, 0⟩ 0 0 1 [] []
  extractSymbolsFun := fun _ _ => []
  getCallGraphFun := fun _ _ => ⟨[]⟩
  findFunctionFun := fun _ _ q => ⟨q, []⟩
  findVariableFun := fun _ _ q => ⟨q, []⟩
  findUsageFun := fun _ _ q => ⟨q, []⟩
  getDependenciesFun := fun _ _ => []
  compileQueryFun := fun q root =>
    if q = "(bad" then .error "boom" else .ok [("id", [root])]

/-- Witness for `c9_errors_always_empty`: a concrete successful run whose
result has empty `errors`. -/
theorem c9_witness :
    (treesitter_mcp.analyze witAnalyzer ⟨[], 0⟩ "f.py" "x").1.map
      models.AnalysisResult.errors = .ok [] := by
  have hrun : treesitter_mcp.analyze witAnalyzer ⟨[], 0⟩ "f.py" "x" =
      (.ok { file_path := "f.py", language := "python"
             ast := treesitter_mcp._build_ast
               (TSNode.mk "module" ⟨0, 0⟩ ⟨0, 0⟩ 0 0 1 [] []) "x" 0 (-1)
             symbols := [], errors := [] },
       ⟨[("python", 0)], 1⟩) := rfl
  have he := c9_errors_always_empty witAnalyzer ⟨[], 0⟩ "f.py" "x" _ _ hrun
  rw [hrun]
  simp [Except.map, he]

/-- Reachability invariant of the parser cache: every cached key is a
supported language name (true initially — the cache starts empty — and
preserved by `getParser`, which only inserts supported names). -/
def LMInv (σ : LMState) : Prop :=
  ∀ p ∈ σ.parsers, p.1 ∈ _languages

/-- C5: for a supported language name, `get_parser` creates the parser on
the first call only and every repeated call returns the very same cached
handle without touching the cache; for any other name, `get_parser` and
`get_language` fail with the `UnsupportedLanguage` condition
(`ValueError("Language ... not supported")`) and the cache is unchanged. -/
theorem c5_get_parser_cache (σ : LMState) (name : String) (hinv : LMInv σ) :
    (name ∈ _languages →
      ∃ p σ', getParser σ name = (.ok p, σ') ∧
        getParser σ' name = (.ok p, σ') ∧
        LMInv σ' ∧
        (lookupParser σ.parsers name = none →
          σ'.parsers = σ.parsers ++ [(name, p)]) ∧
        (∀ q, lookupParser σ.parsers name = some q → σ' = σ ∧ p = q)) ∧
    (name ∉ _languages →
      getParser σ name = (.error ("Language " ++ name ++ " not supported"), σ) ∧
      get_language name = .error ("Language " ++ name ++ " not supported")) := by
  constructor
  · intro hmem
    have hcont : _languages.contains name = true := List.elem_eq_true_of_mem hmem
    cases hl : lookupParser σ.parsers name with
    | some h =>
      refine ⟨h, σ, ?_, ?_, hinv, ?_, ?_⟩
      · unfold getParser; rw [hl]
      · unfold getParser; rw [hl]
      · intro hnone; exact Option.noConfusion hnone
      · intro q hq; exact ⟨rfl, (Option.some.injEq _ _).mp hq⟩
    | none =>
      refine ⟨σ.nextId, ⟨σ.parsers ++ [(name, σ.nextId)], σ.nextId + 1⟩, ?_, ?_, ?_, ?_, ?_⟩
      · unfold getParser get_language
        rw [hl, if_pos hcont]
      · unfold getParser
        rw [lookupParser_append_self σ.parsers name σ.nextId hl]
      · intro p hp
        rcases List.mem_append.mp hp with hold | hnew
        · exact hinv p hold
        · rw [List.mem_singleton.mp hnew]; exact hmem
      · intro _; rfl
      · intro q hq; exact Option.noConfusion hq
  · intro hmem
    have hl : lookupParser σ.parsers name = none := by
      unfold lookupParser
      cases hf : σ.parsers.find? (fun p => p.1 = name) with
      | none => rfl
      | some p =>
        have hpn : p.1 = name := by
          have := List.find?_some hf
          simpa using this
        have hpmem := List.mem_of_find?_eq_some hf
        exact absurd (hpn ▸ hinv p hpmem) hmem
    have hcont : _languages.contains name = false := by
      by_contra hc
      exact hmem (List.mem_of_elem_eq_true (Bool.of_not_eq_false hc))
    constructor
    · unfold getParser get_language
      rw [hl, if_neg (by rw [hcont]; exact Bool.false_ne_true)]
    · unfold get_language
      rw [if_neg (by rw [hcont]; exact Bool.false_ne_true)]

/-- Witness for `c5_get_parser_cache`: from the empty cache, the
unsupported name `"ruby"` makes both operations fail with the typed message
and leaves the state unchanged. -/
theorem c5_witness :
    getParser ⟨[], 0⟩ "ruby" =
      (.error ("Language " ++ "ruby" ++ " not supported"), ⟨[], 0⟩) ∧
    get_language "ruby" = .error ("Language " ++ "ruby" ++ " not supported") :=
  (c5_get_parser_cache ⟨[], 0⟩ "ruby" (by intro p hp; simp at hp)).2 (by decide)

/-- C4: when the query string fails to compile against the grammar,
`run_query` fails with the typed `InvalidQuery` condition
(`ValueError(f"Invalid query: {e}")` carrying the compiler diagnostic `e`),
never a generic crash; when it compiles, `run_query` returns normally with
a match list. -/
theorem c4_run_query_error_handling (a : Analyzer) (q : String) (root : TSNode)
    (code : String) (hsup : a.language_name ∈ _languages) :
    (∀ e, a.compileQueryFun q root = .error e →
      treesitter_mcp.run_query a q root code = .error ("Invalid query: " ++ e)) ∧
    (∀ caps, a.compileQueryFun q root = .ok caps →
      ∃ l, treesitter_mcp.run_query a q root code = .ok l) := by
  have hg : get_language a.language_name = .ok a.language_name := by
    unfold get_language
    rw [if_pos (List.elem_eq_true_of_mem hsup)]
  constructor
  · intro e he
    unfold treesitter_mcp.run_query
    rw [hg, he]
  · intro caps hc
    unfold treesitter_mcp.run_query
    rw [hg, hc]
    exact ⟨_, rfl⟩

/-- Witness for `c4_run_query_error_handling`: the concrete query
`"(bad"`, which the provider rejects with diagnostic `"boom"`, makes
`run_query` fail with exactly the prefixed InvalidQuery message. -/
theorem c4_witness :
    treesitter_mcp.run_query witAnalyzer "(bad"
        (TSNode.mk "module" ⟨0, 0⟩ ⟨0, 0⟩ 0 0 1 [] []) "" =
      .error ("Invalid query: " ++ "boom") :=
  (c4_run_query_error_handling witAnalyzer "(bad"
      (TSNode.mk "module" ⟨0, 0⟩ ⟨0, 0⟩ 0 0 1 [] []) "" (by decide)).1 "boom" rfl

/-- C6 (amended): on a successfully compiled query, both `run_query`
implementations return the flat list with exactly one
`{capture_name, text, start, end, type}` record per (capture, matched node)
pair — capture (dict insertion) order first, node order second — where
`type` is the node's type tag and `start`/`end` its points; the length
equals the total number of (capture, node) pairs.  The `treesitter_mcp`
variant sets `text` to the node's decoded source bytes; the `mcp_server`
variant sets `text` to the character-index slice
`code[start_byte:end_byte]`, and the two agree — so that variant's `text`
is also the matched node's source text — whenever the source is ASCII and
the captured nodes are well-formed against it. -/
theorem c6_run_query_records (a : Analyzer) (q : String) (root : TSNode)
    (code : String) (caps : List (String × List TSNode))
    (hsup : a.language_name ∈ _languages)
    (hc : a.compileQueryFun q root = .ok caps) :
    treesitter_mcp.run_query a q root code =
      .ok (caps.flatMap (fun p => p.2.map (fun node =>
        { capture_name := p.1
          text := if node.textBytes.isEmpty then "" else utf8DecodeStr node.textBytes
          start := node.start_point
          «end» := node.end_point
          type := node.type }))) ∧
    mcp_server.run_query a q root code =
      .ok (caps.flatMap (fun p => p.2.map (fun node =>
        { capture_name := p.1
          text := pySlice code node.start_byte node.end_byte
          start := node.start_point
          «end» := node.end_point
          type := node.type }))) ∧
    (∀ l, treesitter_mcp.run_query a q root code = .ok l →
      l.length = (caps.map (fun p => p.2.length)).sum) ∧
    (∀ l, mcp_server.run_query a q root code = .ok l →
      l.length = (caps.map (fun p => p.2.length)).sum) ∧
    (AsciiOnly code = true →
      (∀ p ∈ caps, ∀ nd ∈ p.2, WF code nd = true) →
      mcp_server.run_query a q root code =
        treesitter_mcp.run_query a q root code) := by
  have hg : get_language a.language_name = .ok a.language_name := by
    unfold get_language
    rw [if_pos (List.elem_eq_true_of_mem hsup)]
  have hmain : treesitter_mcp.run_query a q root code =
      .ok (caps.flatMap (fun p => p.2.map (fun node =>
        { capture_name := p.1
          text := if node.textBytes.isEmpty then "" else utf8DecodeStr node.textBytes
          start := node.start_point
          «end» := node.end_point
          type := node.type }))) := by
    unfold treesitter_mcp.run_query
    rw [hg, hc]
  have hmain' : mcp_server.run_query a q root code =
      .ok (caps.flatMap (fun p => p.2.map (fun node =>
        { capture_name := p.1
          text := pySlice code node.start_byte node.end_byte
          start := node.start_point
          «end» := node.end_point
          type := node.type }))) := by
    unfold mcp_server.run_query
    rw [hg, hc]
  refine ⟨hmain, hmain', ?_, ?_, ?_⟩
  · intro l hl
    rw [hmain] at hl
    rw [Except.ok.injEq] at hl
    rw [← hl, List.length_flatMap]
    congr 1
    exact List.map_congr_left (fun p _ => List.length_map _ _)
  · intro l hl
    rw [hmain'] at hl
    rw [Except.ok.injEq] at hl
    rw [← hl, List.length_flatMap]
    congr 1
    exact List.map_congr_left (fun p _ => List.length_map _ _)
  · intro hascii hwfn
    rw [hmain, hmain']
    congr 1
    refine flatMap_congr_left (fun p hp => ?_)
    refine List.map_congr_left (fun nd hnd => ?_)
    have htext : pySlice code nd.start_byte nd.end_byte =
        (if nd.textBytes.isEmpty then "" else utf8DecodeStr nd.textBytes) := by
      rw [utf8DecodeStr_if_empty, WF_textBytes code nd (hwfn p hp nd hnd),
        ascii_decode_slice code hascii]
    rw [htext]

/-- C6, counterexample to the literal claim at a concrete input: on the
source `"é = 1"`, the cited `mcp_server.run_query` produces a record whose
`text` is the character slice `"é "` at byte offsets `[0, 2)`, which is
not the matched (well-formed) identifier node's source text `"é"`. -/
theorem c6_counterexample :
    WF "é = 1" (TSNode.mk "identifier" ⟨0, 0⟩ ⟨0, 2⟩ 0 2 7 [0xC3, 0xA9] []) = true ∧
    mcp_server.run_query witAnalyzer "(identifier) @id"
        (TSNode.mk "identifier" ⟨0, 0⟩ ⟨0, 2⟩ 0 2 7 [0xC3, 0xA9] []) "é = 1" =
      .ok [{ capture_name := "id", text := pySlice "é = 1" 0 2,
             start := ⟨0, 0⟩, «end» := ⟨0, 2⟩, type := "identifier" }] ∧
    pySlice "é = 1" 0 2 ≠
      utf8DecodeStr (TSNode.mk "identifier" ⟨0, 0⟩ ⟨0, 2⟩ 0 2 7
        [0xC3, 0xA9] []).textBytes := by
  refine ⟨?_, rfl, by decide⟩
  rw [WF_iff]
  exact ⟨by decide, by simp⟩

/-- Witness for `c6_run_query_records`: a concrete query capturing the
root module node under the name `"id"`; the `treesitter_mcp` variant
yields exactly one record with the node's tag, points and (empty) text,
and on this ASCII source the `mcp_server` variant returns the identical
list. -/
theorem c6_witness :
    treesitter_mcp.run_query witAnalyzer "(module) @id"
        (TSNode.mk "module" ⟨0, 0⟩ ⟨0, 0⟩ 0 0 1 [] []) "" =
      .ok [{ capture_name := "id", text := "", start := ⟨0, 0⟩,
             «end» := ⟨0, 0⟩, type := "module" }] ∧
    mcp_server.run_query witAnalyzer "(module) @id"
        (TSNode.mk "module" ⟨0, 0⟩ ⟨0, 0⟩ 0 0 1 [] []) "" =
      treesitter_mcp.run_query witAnalyzer "(module) @id"
        (TSNode.mk "module" ⟨0, 0⟩ ⟨0, 0⟩ 0 0 1 [] []) "" := by
  have h := c6_run_query_records witAnalyzer "(module) @id"
      (TSNode.mk "module" ⟨0, 0⟩ ⟨0, 0⟩ 0 0 1 [] []) ""
      [("id", [TSNode.mk "module" ⟨0, 0⟩ ⟨0, 0⟩ 0 0 1 [] []])]
      (by decide) rfl
  constructor
  · rw [h.1]
    rfl
  · refine h.2.2.2.2 (by decide) ?_
    intro p hp nd hnd
    simp only [List.mem_singleton] at hp
    subst hp
    simp only [List.mem_singleton] at hnd
    subst hnd
    rw [WF_iff]
    exact ⟨rfl, by simp⟩

/-- A concrete server environment for the closed witness theorems: every
file reads as the one-character source `"x"`, and every language key maps
to the concrete witness analyzer. -/
def witEnv : ServerEnv where
  fs := fun _ => .ok "x"
  analyzers := fun _ => witAnalyzer

/-- C7: the extension dispatch of the caller layer maps exactly
`.py` → python, `.c` → c, `.cpp`/`.cc`/`.cxx`/`.h`/`.hpp` → cpp (headers
defaulting to C++); the CLI dispatch agrees with the server dispatch on
every path; and on a path with any other extension each exposed file tool
returns the `{"error": ...}` dictionary instead of raising. -/
theorem c7_extension_dispatch (path : String) :
    ((splitextExt path = ".py" → mcp_server.get_analyzer path = some "python") ∧
     (splitextExt path = ".c" → mcp_server.get_analyzer path = some "c") ∧
     (splitextExt path = ".cpp" ∨ splitextExt path = ".cc" ∨ splitextExt path = ".cxx" ∨
        splitextExt path = ".h" ∨ splitextExt path = ".hpp" →
       mcp_server.get_analyzer path = some "cpp") ∧
     (splitextExt path ∉ ([".py", ".c", ".cpp", ".cc", ".cxx", ".h", ".hpp"] : List String) →
       mcp_server.get_analyzer path = none)) ∧
    treesitter_mcp.cli_analyzer_for path = mcp_server.get_analyzer path ∧
    (∀ (env : ServerEnv) (σ : LMState) (q nm : String) (md : Int),
      mcp_server.get_analyzer path = none →
        mcp_server.treesitter_analyze_file env σ path =
          errorDict ("Unsupported file type: " ++ path) ∧
        mcp_server.treesitter_get_call_graph env σ path =
          errorDict ("Unsupported file type: " ++ path) ∧
        mcp_server.treesitter_find_function env σ path nm =
          errorDict ("Unsupported file type: " ++ path) ∧
        mcp_server.treesitter_find_variable env σ path nm =
          errorDict ("Unsupported file type: " ++ path) ∧
        mcp_server.treesitter_get_ast env σ path md =
          errorDict ("Unsupported file type: " ++ path) ∧
        mcp_server.treesitter_run_query env σ q path =
          errorDict ("Unsupported file type: " ++ path) ∧
        mcp_server.treesitter_find_usage env σ nm path =
          errorDict ("Unsupported file type: " ++ path) ∧
        mcp_server.treesitter_get_dependencies env σ path =
          errorDict ("Unsupported file type: " ++ path)) := by
  refine ⟨⟨?_, ?_, ?_, ?_⟩, ?_, ?_⟩
  · intro h
    unfold mcp_server.get_analyzer
    simp [h]
  · intro h
    unfold mcp_server.get_analyzer
    simp [h]
  · intro h
    unfold mcp_server.get_analyzer
    rcases h with h | h | h | h | h <;> simp [h]
  · intro h
    simp only [List.mem_cons, List.not_mem_nil, or_false, not_or] at h
    obtain ⟨h1, h2, h3, h4, h5, h6, h7⟩ := h
    unfold mcp_server.get_analyzer
    simp [h1, h2, h3, h4, h5, h6, h7]
  · unfold treesitter_mcp.cli_analyzer_for mcp_server.get_analyzer
    dsimp only
    split_ifs <;> simp_all
  · intro env σ q nm md h
    refine ⟨?_, ?_, ?_, ?_, ?_, ?_, ?_, ?_⟩
    · unfold mcp_server.treesitter_analyze_file
      rw [h]
    · unfold mcp_server.treesitter_get_call_graph
      rw [h]
    · unfold mcp_server.treesitter_find_function
      rw [h]
    · unfold mcp_server.treesitter_find_variable
      rw [h]
    · unfold mcp_server.treesitter_get_ast
      rw [h]
    · unfold mcp_server.treesitter_run_query
      rw [h]
    · unfold mcp_server.treesitter_find_usage
      rw [h]
    · unfold mcp_server.treesitter_get_dependencies
      rw [h]

/-- Witness for `c7_extension_dispatch`: `"notes.txt"` is unsupported (the
analyze tool answers with the error dictionary) while `"main.py"` maps to
the python analyzer. -/
theorem c7_witness :
    mcp_server.get_analyzer "notes.txt" = none ∧
    mcp_server.treesitter_analyze_file witEnv ⟨[], 0⟩ "notes.txt" =
      errorDict ("Unsupported file type: " ++ "notes.txt") ∧
    mcp_server.get_analyzer "main.py" = some "python" := by
  have hnone : mcp_server.get_analyzer "notes.txt" = none :=
    (c7_extension_dispatch "notes.txt").1.2.2.2 (by decide)
  refine ⟨hnone, ?_, ?_⟩
  · exact ((c7_extension_dispatch "notes.txt").2.2 witEnv ⟨[], 0⟩ "" "" 0 hnone).1
  · exact (c7_extension_dispatch "main.py").1.1 (by decide)

/-- C10: on a supported, readable file whose analysis succeeds, the
`treesitter_analyze_file` tool returns the `model_dump()` dictionary with
the key `ast` popped: exactly the keys `file_path`, `language`, `symbols`,
`errors` — never `ast`. -/
theorem c10_analyze_file_keys (env : ServerEnv) (σ : LMState)
    (path lang code : String) (r : models.AnalysisResult) (σ' : LMState)
    (hga : mcp_server.get_analyzer path = some lang)
    (hfs : env.fs path = .ok code)
    (han : mcp_server.analyze (env.analyzers lang) σ path code = (.ok r, σ')) :
    mcp_server.treesitter_analyze_file env σ path =
      .dict (dictPop r.model_dump "ast") ∧
    (dictPop r.model_dump "ast").map Prod.fst =
      ["file_path", "language", "symbols", "errors"] ∧
    "ast" ∉ (dictPop r.model_dump "ast").map Prod.fst := by
  refine ⟨?_, rfl, ?_⟩
  · unfold mcp_server.treesitter_analyze_file
    rw [hga]
    dsimp only
    rw [hfs]
    dsimp only
    rw [han]
  · rw [show (dictPop r.model_dump "ast").map Prod.fst =
        ["file_path", "language", "symbols", "errors"] from rfl]
    decide

/-- Witness for `c10_analyze_file_keys`: a concrete successful run over
`"m.py"`; the tool's response is the four-key dictionary without `ast`. -/
theorem c10_witness :
    mcp_server.treesitter_analyze_file witEnv ⟨[], 0⟩ "m.py" =
      .dict [("file_path", DVal.s "m.py"), ("language", DVal.s "python"),
             ("symbols", DVal.symbols []), ("errors", DVal.strs [])] := by
  have han : mcp_server.analyze witAnalyzer ⟨[], 0⟩ "m.py" "x" =
      (.ok { file_path := "m.py", language := "python"
             ast := mcp_server._build_ast
               (TSNode.mk "module" ⟨0, 0⟩ ⟨0, 0⟩ 0 0 1 [] []) "x" 0 (-1)
             symbols := [], errors := [] },
       ⟨[("python", 0)], 1⟩) := rfl
  have h := (c10_analyze_file_keys witEnv ⟨[], 0⟩ "m.py" "python" "x" _ _
      (by decide) rfl han).1
  exact h.trans rfl

/-- C8, counterexample: already on the one-line Python source `"é = 1"` —
where `é` occupies two UTF-8 bytes but one character — the identifier
node's byte span `[0, 2)` decodes to `"é"` in the `treesitter_mcp` variant
but string-slices to `"é "` in the `mcp_server` variant, so the two
`_build_ast` implementations return different trees. -/
theorem c8_counterexample :
    WF "é = 1" (TSNode.mk "identifier" ⟨0, 0⟩ ⟨0, 2⟩ 0 2 7 [0xC3, 0xA9] []) = true ∧
    mcp_server._build_ast
        (TSNode.mk "identifier" ⟨0, 0⟩ ⟨0, 2⟩ 0 2 7 [0xC3, 0xA9] []) "é = 1" 0 (-1) ≠
      treesitter_mcp._build_ast
        (TSNode.mk "identifier" ⟨0, 0⟩ ⟨0, 2⟩ 0 2 7 [0xC3, 0xA9] []) "é = 1" 0 (-1) := by
  constructor
  · rw [WF_iff]
    exact ⟨by decide, by simp⟩
  · have hm : (mcp_server._build_ast
        (TSNode.mk "identifier" ⟨0, 0⟩ ⟨0, 2⟩ 0 2 7 [0xC3, 0xA9] []) "é = 1" 0 (-1)).text =
        some (pySlice "é = 1" 0 2) := by
      simp [mcp_server.build_ast_eq_srv]
    have ht : (treesitter_mcp._build_ast
        (TSNode.mk "identifier" ⟨0, 0⟩ ⟨0, 2⟩ 0 2 7 [0xC3, 0xA9] []) "é = 1" 0 (-1)).text =
        some (utf8DecodeStr [0xC3, 0xA9]) := by
      simp [treesitter_mcp.build_ast_eq_tsm]
    intro h
    rw [h, ht, Option.some.injEq] at hm
    exact absurd hm (by decide)

/-- C8 (amended): the two `_build_ast` implementations agree whenever the
source is ASCII-only (characters and bytes coincide) and every node of the
provider tree spans a non-empty byte range inside the source.  In general
they differ: multi-byte characters shift the string-sliced window
(`c8_counterexample`), and nodes with an empty span get `text = None` from
the byte-decoding variant but `text = ""` from the slicing variant. -/
theorem c8_amended_equal (code : String) :
    ∀ n : TSNode, ∀ depth max_depth : Int,
      AsciiOnly code = true → WF code n = true → SpansOk code.length n = true →
      mcp_server._build_ast n code depth max_depth =
        treesitter_mcp._build_ast n code depth max_depth := by
  intro n
  induction n using TSNode.inductionOn with
  | _ ty sp ep sb eb i tb cs ih =>
    intro depth max_depth hascii hwf hspans
    obtain ⟨htb, hwfc⟩ := (WF_iff code ty sp ep sb eb i tb cs).mp hwf
    obtain ⟨hlt, hle, hspc⟩ := (SpansOk_iff code.length ty sp ep sb eb i tb cs).mp hspans
    simp only [mcp_server.build_ast_eq_srv, treesitter_mcp.build_ast_eq_tsm]
    have hchild : (if max_depth = -1 ∨ depth < max_depth
        then cs.map (fun c => mcp_server._build_ast c code (depth + 1) max_depth)
        else []) =
        (if max_depth = -1 ∨ depth < max_depth
          then cs.map (fun c => treesitter_mcp._build_ast c code (depth + 1) max_depth)
          else []) := by
      by_cases hcond : max_depth = -1 ∨ depth < max_depth
      · rw [if_pos hcond, if_pos hcond]
        exact List.map_congr_left (fun c hc =>
          ih c hc (depth + 1) max_depth hascii (hwfc c hc) (hspc c hc))
      · rw [if_neg hcond, if_neg hcond]
    rw [hchild]
    congr 1
    have hslice : tb = (listSlice code.data sb eb).map Char.toNat := by
      rw [htb, ascii_utf8Encode code hascii, listSlice_map]
    have hlen : sb < code.data.length := by
      have : code.length = code.data.length := rfl
      omega
    have hnonnil : listSlice code.data sb eb ≠ [] :=
      listSlice_ne_nil code.data sb eb hlt hlen
    by_cases hemp : (if max_depth = -1 ∨ depth < max_depth
        then cs.map (fun c => treesitter_mcp._build_ast c code (depth + 1) max_depth)
        else []).isEmpty
    · rw [if_pos hemp, if_pos hemp]
      have htbne : tb.isEmpty = false := by
        rw [hslice, List.isEmpty_eq_false]
        intro hx
        exact hnonnil (List.map_eq_nil_iff.mp hx)
      rw [htbne]
      simp only [Bool.false_eq_true, if_false]
      unfold pySlice utf8DecodeStr
      have hdec : utf8DecodeChars tb = listSlice code.data sb eb := by
        rw [hslice]
        refine utf8Decode_map_toNat _ (fun c hc => ?_)
        have hmem := mem_of_mem_listSlice hc
        unfold AsciiOnly at hascii
        rw [List.all_eq_true] at hascii
        exact of_decide_eq_true (hascii c hmem)
      rw [hdec]
    · rw [if_neg hemp, if_neg hemp]

/-- Witness for `c8_amended_equal`: on the concrete ASCII source `"x"` with
a single leaf spanning `[0, 1)`, the two implementations produce the same
tree. -/
theorem c8_amended_witness :
    mcp_server._build_ast (TSNode.mk "module" ⟨0, 0⟩ ⟨0, 1⟩ 0 1 1 [0x78] [])
        "x" 0 (-1) =
      treesitter_mcp._build_ast (TSNode.mk "module" ⟨0, 0⟩ ⟨0, 1⟩ 0 1 1 [0x78] [])
        "x" 0 (-1) :=
  c8_amended_equal "x" (TSNode.mk "module" ⟨0, 0⟩ ⟨0, 1⟩ 0 1 1 [0x78] []) 0 (-1)
    (by decide)
    (by rw [WF_iff]; exact ⟨by decide, by simp⟩)
    (by rw [SpansOk_iff]; exact ⟨by decide, by decide, by simp⟩)
